import Mathlib

/-!
Verification of the segment/patch subsystem of `modify.py`: segment
extraction with stable IDs, first-occurrence text replacement across a
paragraph's runs, paragraph insertion, and patch application with a
report of applied/skipped edits.

Strings are modelled as `List Char` (Python `str` of Unicode code points).
A `Run` models a python-docx run: its text plus the style attributes the
script touches (character style, bold, italic, underline).  A `Paragraph`
is its list of runs; a document is its list of paragraphs.  Python dicts
for edits/patches become structures with `Option` fields (`none` = key
absent); `dict.get(k, d)` becomes `Option.getD`.
-/

/-- A text run: `text` plus the style attributes copied by the script. -/
structure Run where
  text : List Char
  style : Option (List Char)
  bold : Option Bool
  italic : Option Bool
  underline : Option Bool
deriving DecidableEq, Repr

/-- A paragraph is its ordered list of runs. -/
structure Paragraph where
  runs : List Run
deriving DecidableEq, Repr

/-- A fresh run as created by `paragraph.add_run(text)`: no explicit style. -/
def mkRun (t : List Char) : Run :=
  { text := t, style := none, bold := none, italic := none, underline := none }

/-- The empty paragraph, used as a `getD` default. -/
def emptyPara : Paragraph := ⟨[]⟩

/-- `Paragraph.text` in python-docx: the concatenation of the run texts. -/
def paraText (p : Paragraph) : List Char :=
  (p.runs.map Run.text).flatten

/-- `Segment` dataclass from `modify.py`. -/
structure Segment where
  id : List Char
  kind : List Char
  para_idx : Nat
  text : List Char
  context_left : List Char
  context_right : List Char
deriving DecidableEq, Repr

/-- A patch edit (a JSON dict); `none` marks an absent key. -/
structure Edit where
  id : Option (List Char)
  op : Option (List Char)
  old_excerpt : Option (List Char)
  new_text : Option (List Char)
deriving DecidableEq, Repr

/-- A patch: `doc_id` plus the (possibly absent) `edits` list. -/
structure Patch where
  doc_id : List Char
  edits : Option (List Edit)
deriving DecidableEq, Repr

/-- One entry of the report's `skipped` list: `{"id": ..., "reason": ...}`. -/
structure SkipEntry where
  id : Option (List Char)
  reason : List Char
deriving DecidableEq, Repr

/-- The report built by `apply_patch_to_doc`. -/
structure Report where
  applied : List Edit
  skipped : List SkipEntry
deriving DecidableEq, Repr

/-- `f"{n:04d}"`: decimal digits of `n` left-padded with `'0'` to width 4. -/
def pad4 (n : Nat) : List Char :=
  let ds := Nat.toDigits 10 n
  List.replicate (4 - ds.length) '0' ++ ds

/-- The per-paragraph body of the `make_segments` loop: the segment for the
paragraph at 0-based position `i`. -/
def mkSegment (window : Nat) (i : Nat) (p : Paragraph) : Segment :=
  let full_text := paraText p
  { id := 'p' :: '-' :: pad4 (i + 1)
    kind := "paragraph".data
    para_idx := i
    text := full_text
    -- full_text[:window]
    context_left := full_text.take window
    -- full_text[-window:]  (Python: -0 is 0, so window = 0 keeps the whole text)
    context_right := if window = 0 then full_text
      else full_text.drop (full_text.length - window) }

/-- The `make_segments` loop, carrying the enumeration index `i`. -/
def make_segments_from (window : Nat) (i : Nat) : List Paragraph → List Segment
  | [] => []
  | p :: rest => mkSegment window i p :: make_segments_from window (i + 1) rest

/-- `make_segments(doc, window=80)`. -/
def make_segments (doc : List Paragraph) (window : Nat := 80) : List Segment :=
  make_segments_from window 0 doc

/-- Index of the first occurrence of `old` in `s` (`s.find(old)`), `none` if
absent. -/
def findSub (old : List Char) : List Char → Option Nat
  | [] => if old.isPrefixOf ([] : List Char) then some 0 else none
  | c :: t =>
    if old.isPrefixOf (c :: t) then some 0
    else (findSub old t).map (· + 1)

/-- `old` occurs in `s` at position `i`. -/
def occursAtB (old s : List Char) (i : Nat) : Bool :=
  old.isPrefixOf (s.drop i)

/-- The scan for the first affected run: `ri` the current run index, `pos`
the cumulative character offset.  (The Python loop keeps iterating after a
hit but the `first_run_idx is None` guard prevents any overwrite, so the
first hit is the result.) -/
def first_affected_from (start stop : Nat) : List Run → Nat → Nat → Option Nat
  | [], _, _ => none
  | r :: rest, ri, pos =>
    let nxt := pos + r.text.length
    if nxt > start ∧ pos < stop then some ri
    else first_affected_from start stop rest (ri + 1) nxt

/-- Index of the first run whose character range overlaps `[start, stop)`. -/
def first_affected (runs : List Run) (start stop : Nat) : Option Nat :=
  first_affected_from start stop runs 0 0

/-- The style-copy block: copy character style (when present/truthy), bold,
italic and underline from `src` onto `r`.  The Python wraps this in
`try/except Exception: pass`; the pure model's copy always succeeds. -/
def copy_run_style (src : Run) (r : Run) : Run :=
  let r1 := if src.style.isSome then { r with style := src.style } else r
  { r1 with bold := src.bold, italic := src.italic, underline := src.underline }

/-- `replace_first_occurrence_in_runs(p, old_excerpt, new_text)`: the Bool
result together with the (possibly rebuilt) paragraph, since the Python
mutates `p` in place. -/
def replace_first_occurrence_in_runs (p : Paragraph) (old_excerpt new_text : List Char) :
    Bool × Paragraph :=
  if old_excerpt = [] then
    (false, p)
  else
    let runs := p.runs
    let concatenated := (runs.map Run.text).flatten
    match findSub old_excerpt concatenated with
    | none => (false, p)
    | some idx =>
      let start := idx
      let stop := idx + old_excerpt.length
      let first_run_idx := (first_affected runs start stop).getD 0
      let new_para_text := concatenated.take start ++ new_text ++ concatenated.drop stop
      -- _remove_all_runs(p); new_run = p.add_run(new_para_text)
      let new_run := mkRun new_para_text
      -- src = runs[first_run_idx] if runs else None; copy style best-effort
      let new_run :=
        match runs with
        | [] => new_run
        | _ => copy_run_style (runs.getD first_run_idx (mkRun [])) new_run
      (true, ⟨[new_run]⟩)

/-- `insert_paragraph_after(paragraph, text, copy_style)`, with the target
paragraph given by its index `j` in the document; returns the updated
document together with the new paragraph (the function's return value). -/
def insert_paragraph_after (doc : List Paragraph) (j : Nat) (text : List Char)
    (copy_style : Bool) : List Paragraph × Paragraph :=
  let paragraph := doc.getD j emptyPara
  let new_para :=
    match copy_style, paragraph.runs with
    | true, src :: _ => Paragraph.mk [copy_run_style src (mkRun text)]
    | _, _ => Paragraph.mk [mkRun text]
  (doc.take (j + 1) ++ new_para :: doc.drop (j + 1), new_para)

/-- `{s.id: s for s in segments}` lookup: later segments with the same id
overwrite earlier ones, as in a Python dict comprehension. -/
def seg_by_id (segments : List Segment) (key : List Char) : Option Segment :=
  segments.foldl (fun acc s => if s.id = key then some s else acc) none

/-- `if not seg_id or seg_id not in seg_by_id`: resolution of an edit's id
(absent key and empty string are both falsy). -/
def resolve_id (segments : List Segment) (i : Option (List Char)) : Option Segment :=
  match i with
  | none => none
  | some s => if s = [] then none else seg_by_id segments s

/-- `f"unsupported_op:{op}"` with `op = edit.get("op")` (`None` when absent). -/
def unsupported_reason (op : Option (List Char)) : List Char :=
  "unsupported_op:".data ++ (match op with | none => "None".data | some s => s)

/-- The state threaded through the patch loop: the (mutable in Python)
document, the segments list as passed in, and the report under
construction. -/
structure ApplyState where
  doc : List Paragraph
  segments : List Segment
  report : Report
deriving DecidableEq, Repr

/-- Append a skip entry for `edit` to the report. -/
def skipEdit (st : ApplyState) (edit : Edit) (reason : List Char) : ApplyState :=
  { st with report :=
      { st.report with skipped := st.report.skipped ++ [⟨edit.id, reason⟩] } }

/-- Record `edit` as applied with the document updated to `d`. -/
def applyEdit (st : ApplyState) (edit : Edit) (d : List Paragraph) : ApplyState :=
  { st with doc := d
            report := { st.report with applied := st.report.applied ++ [edit] } }

/-- The body of the `for edit in patch.get("edits", [])` loop. -/
def apply_one_edit (segments : List Segment) (st : ApplyState) (edit : Edit) : ApplyState :=
  match resolve_id segments edit.id with
  | none => skipEdit st edit "unknown_id".data
  | some seg =>
    match st.doc.get? seg.para_idx with
    | none =>
      -- `doc.paragraphs[seg.para_idx]` raised IndexError
      skipEdit st edit "para_idx_out_of_range".data
    | some p =>
      if edit.op = some "replace_text".data then
        let old_excerpt := edit.old_excerpt.getD []
        let new_text := edit.new_text.getD []
        if new_text = [] then skipEdit st edit "empty_new_text".data
        else
          let r := replace_first_occurrence_in_runs p old_excerpt new_text
          if r.1 then applyEdit st edit (st.doc.set seg.para_idx r.2)
          else skipEdit st edit "old_excerpt_not_found".data
      else if edit.op = some "insert_after".data then
        let new_text := edit.new_text.getD []
        if new_text = [] then skipEdit st edit "empty_new_text".data
        else applyEdit st edit (insert_paragraph_after st.doc seg.para_idx new_text true).1
      else
        skipEdit st edit (unsupported_reason edit.op)

/-- `apply_patch_to_doc(doc, segments, patch)`: fold the per-edit step over
`patch.get("edits", [])`, starting from an empty report. -/
def apply_patch_to_doc (doc : List Paragraph) (segments : List Segment)
    (patch : Patch) : ApplyState :=
  (patch.edits.getD []).foldl (apply_one_edit segments) ⟨doc, segments, ⟨[], []⟩⟩

/-! ### Lemmas about `findSub` -/

/-- `findSub` finds an actual occurrence. -/
theorem occursAtB_of_findSub {old s : List Char} {i : Nat}
    (h : findSub old s = some i) : occursAtB old s i = true := by
  induction s generalizing i with
  | nil =>
    by_cases hp : old.isPrefixOf ([] : List Char)
    · simp [findSub, hp] at h
      subst h
      simpa [occursAtB] using hp
    · simp [findSub, hp] at h
  | cons c t ih =>
    by_cases hp : old.isPrefixOf (c :: t)
    · simp [findSub, hp] at h
      subst h
      simpa [occursAtB] using hp
    · simp [findSub, hp] at h
      obtain ⟨j, hj, rfl⟩ := h
      simpa [occursAtB] using ih hj

/-- If `old` does not occur anywhere in `s`, `findSub` returns `none`. -/
theorem findSub_eq_none {old s : List Char}
    (h : ∀ j, occursAtB old s j = false) : findSub old s = none := by
  cases hf : findSub old s with
  | none => rfl
  | some i =>
    have := occursAtB_of_findSub hf
    rw [h i] at this
    exact absurd this (by simp)

/-- `findSub` returns the leftmost occurrence: if `old` occurs at `i` and at
no earlier position, `findSub` finds exactly `i`. -/
theorem findSub_eq_some_of_first {old s : List Char} {i : Nat}
    (hocc : occursAtB old s i = true)
    (hleast : ∀ j, j < i → occursAtB old s j = false) :
    findSub old s = some i := by
  induction s generalizing i with
  | nil =>
    have hi : i = 0 := by
      by_contra hne
      have h0 : occursAtB old ([] : List Char) 0 = true := by
        simpa [occursAtB] using hocc
      have := hleast 0 (Nat.pos_of_ne_zero hne)
      rw [h0] at this
      exact absurd this (by simp)
    subst hi
    have hp : old.isPrefixOf ([] : List Char) := by simpa [occursAtB] using hocc
    simp [findSub, hp]
  | cons c t ih =>
    by_cases hp : old.isPrefixOf (c :: t)
    · have hi : i = 0 := by
        by_contra hne
        have := hleast 0 (Nat.pos_of_ne_zero hne)
        simp [occursAtB, hp] at this
      subst hi
      simp [findSub, hp]
    · have hi : i ≠ 0 := by
        intro h0
        subst h0
        simp [occursAtB, hp] at hocc
      obtain ⟨j, rfl⟩ := Nat.exists_eq_succ_of_ne_zero hi
      have hocc' : occursAtB old t j = true := by simpa [occursAtB] using hocc
      have hleast' : ∀ k, k < j → occursAtB old t k = false := by
        intro k hk
        have := hleast (k + 1) (Nat.succ_lt_succ hk)
        simpa [occursAtB] using this
      simp [findSub, hp, ih hocc' hleast']

/-- `copy_run_style` only touches style attributes, never the text. -/
theorem copy_run_style_text (src r : Run) : (copy_run_style src r).text = r.text := by
  unfold copy_run_style
  by_cases h : src.style.isSome
  · simp [h]
  · simp [h]

/-- C1: when a non-empty `old_excerpt` occurs in the concatenated run text,
`replace_first_occurrence_in_runs` returns true and rebuilds the paragraph
as exactly one run whose text is `concatenated[:start] + new_text +
concatenated[end:]` for the leftmost occurrence span `[start, end)`: only
the first occurrence is replaced and prefix/suffix are unchanged. -/
theorem replace_first_occurrence_spec (p : Paragraph) (old new : List Char) (i : Nat)
    (hne : old ≠ [])
    (hocc : occursAtB old (paraText p) i = true)
    (hleast : ∀ j, j < i → occursAtB old (paraText p) j = false) :
    (replace_first_occurrence_in_runs p old new).1 = true ∧
    (replace_first_occurrence_in_runs p old new).2.runs.map Run.text =
      [(paraText p).take i ++ new ++ (paraText p).drop (i + old.length)] := by
  have hfind : findSub old (paraText p) = some i := findSub_eq_some_of_first hocc hleast
  have hconc : (p.runs.map Run.text).flatten = paraText p := rfl
  simp only [replace_first_occurrence_in_runs, hconc, hfind, if_neg hne]
  cases hr : p.runs with
  | nil => simp [mkRun]
  | cons a l => simp [copy_run_style_text, mkRun]

/-- C1 witness: a concrete paragraph where the excerpt occurs. -/
theorem replace_first_occurrence_spec_witness :
    ("b".data ≠ []) ∧
    (replace_first_occurrence_in_runs ⟨[mkRun "ab".data, mkRun "b".data]⟩
        "b".data "X".data).1 = true ∧
    (replace_first_occurrence_in_runs ⟨[mkRun "ab".data, mkRun "b".data]⟩
        "b".data "X".data).2.runs.map Run.text =
      [(paraText ⟨[mkRun "ab".data, mkRun "b".data]⟩).take 1 ++ "X".data ++
        (paraText ⟨[mkRun "ab".data, mkRun "b".data]⟩).drop (1 + "b".data.length)] :=
  ⟨by decide,
   replace_first_occurrence_spec ⟨[mkRun "ab".data, mkRun "b".data]⟩
     "b".data "X".data 1 (by decide) (by decide)
     (by
       intro j hj
       interval_cases j
       all_goals decide)⟩

/-- C3: with an empty excerpt, or one that does not occur in the
concatenated run text, `replace_first_occurrence_in_runs` returns false and
leaves the paragraph unchanged. -/
theorem replace_first_occurrence_fails (p : Paragraph) (old new : List Char)
    (h : old = [] ∨ ∀ j, occursAtB old (paraText p) j = false) :
    replace_first_occurrence_in_runs p old new = (false, p) := by
  unfold replace_first_occurrence_in_runs
  rcases h with h | h
  · simp [h]
  · by_cases hne : old = []
    · simp [hne]
    · have hconc : (p.runs.map Run.text).flatten = paraText p := rfl
      simp only [if_neg hne, hconc, findSub_eq_none h]

/-- C3 witness: a concrete paragraph not containing the excerpt. -/
theorem replace_first_occurrence_fails_witness :
    replace_first_occurrence_in_runs ⟨[mkRun "ab".data]⟩ "z".data "X".data =
      (false, ⟨[mkRun "ab".data]⟩) :=
  replace_first_occurrence_fails ⟨[mkRun "ab".data]⟩ "z".data "X".data
    (Or.inr (by
      intro j
      simp only [occursAtB]
      cases j with
      | zero => decide
      | succ j => cases j with
        | zero => decide
        | succ j => simp [List.drop_succ_cons, paraText, mkRun]))

/-! ### Lemmas about `make_segments` -/

/-- Default segment for `getD`-style indexing. -/
def dfltSeg : Segment := ⟨[], [], 0, [], [], []⟩

/-- `make_segments_from` yields one segment per paragraph. -/
theorem make_segments_from_length (w i : Nat) (l : List Paragraph) :
    (make_segments_from w i l).length = l.length := by
  induction l generalizing i with
  | nil => rfl
  | cons p rest ih => simp [make_segments_from, ih]

/-- The segment at position `k` comes from the paragraph at position `k`,
with enumeration index `i + k`. -/
theorem make_segments_from_getD (w : Nat) (l : List Paragraph) (i k : Nat)
    (hk : k < l.length) :
    (make_segments_from w i l).getD k dfltSeg = mkSegment w (i + k) (l.getD k emptyPara) := by
  induction l generalizing i k with
  | nil => simp at hk
  | cons p rest ih =>
    cases k with
    | zero => simp [make_segments_from]
    | succ k =>
      simp only [make_segments_from, List.getD_cons_succ]
      rw [ih (i + 1) k (by simpa using hk)]
      congr 1
      omega

/-- C5: `make_segments` yields exactly one segment per paragraph, in
document order, with id `"p-" ++ (i+1)` zero-padded to 4 digits, kind
`"paragraph"`, `para_idx = i`, and the paragraph's full text; it is a pure
function of the document. -/
theorem make_segments_spec (doc : List Paragraph) (window : Nat) :
    (make_segments doc window).length = doc.length ∧
    ∀ i, i < doc.length →
      ((make_segments doc window).getD i dfltSeg).id = 'p' :: '-' :: pad4 (i + 1) ∧
      ((make_segments doc window).getD i dfltSeg).kind = "paragraph".data ∧
      ((make_segments doc window).getD i dfltSeg).para_idx = i ∧
      ((make_segments doc window).getD i dfltSeg).text = paraText (doc.getD i emptyPara) := by
  constructor
  · exact make_segments_from_length window 0 doc
  · intro i hi
    unfold make_segments
    rw [make_segments_from_getD window doc 0 i hi]
    simp [mkSegment]

/-- C5 witness: a concrete one-paragraph document. -/
theorem make_segments_spec_witness :
    (0 < ([⟨[mkRun "ab".data]⟩] : List Paragraph).length) ∧
    ((make_segments [⟨[mkRun "ab".data]⟩] 80).getD 0 dfltSeg).id = 'p' :: '-' :: pad4 (0 + 1) ∧
    ((make_segments [⟨[mkRun "ab".data]⟩] 80).getD 0 dfltSeg).kind = "paragraph".data ∧
    ((make_segments [⟨[mkRun "ab".data]⟩] 80).getD 0 dfltSeg).para_idx = 0 ∧
    ((make_segments [⟨[mkRun "ab".data]⟩] 80).getD 0 dfltSeg).text =
      paraText (([⟨[mkRun "ab".data]⟩] : List Paragraph).getD 0 emptyPara) :=
  ⟨by decide, (make_segments_spec [⟨[mkRun "ab".data]⟩] 80).2 0 (by decide)⟩

/-- C6 counterexample: with `window = 0` and text `"ab"`, the claim says
`context_right` is the last 0 characters (i.e. empty), but the code's
`full_text[-0:]` slice keeps the whole text. -/
theorem make_segments_window0_counterexample :
    ¬ (((make_segments [⟨[mkRun "ab".data]⟩] 0).getD 0 dfltSeg).context_right =
        (((make_segments [⟨[mkRun "ab".data]⟩] 0).getD 0 dfltSeg).text).drop
          ((((make_segments [⟨[mkRun "ab".data]⟩] 0).getD 0 dfltSeg).text).length - 0)) := by
  decide

/-- C6 (amended): `context_left` is the first `window` characters (the full
text when it is shorter); for `window > 0`, `context_right` is the last
`window` characters (the full text when shorter); for `window = 0`,
`context_right` is the full text (Python's `text[-0:]`), not the empty
string. -/
theorem make_segments_contexts (doc : List Paragraph) (window : Nat) (i : Nat)
    (hi : i < doc.length) :
    ((make_segments doc window).getD i dfltSeg).context_left =
      (((make_segments doc window).getD i dfltSeg).text).take window ∧
    (0 < window →
      ((make_segments doc window).getD i dfltSeg).context_right =
        (((make_segments doc window).getD i dfltSeg).text).drop
          ((((make_segments doc window).getD i dfltSeg).text).length - window)) ∧
    (window = 0 →
      ((make_segments doc window).getD i dfltSeg).context_right =
        ((make_segments doc window).getD i dfltSeg).text) := by
  unfold make_segments
  rw [make_segments_from_getD window doc 0 i hi]
  refine ⟨by simp [mkSegment], ?_, ?_⟩
  · intro hw
    simp [mkSegment, Nat.pos_iff_ne_zero.mp hw]
  · intro hw
    simp [mkSegment, hw]

/-- C6 witness: concrete segment with `window = 1` and `window = 0`. -/
theorem make_segments_contexts_witness :
    ((make_segments [⟨[mkRun "ab".data]⟩] 1).getD 0 dfltSeg).context_left =
      (((make_segments [⟨[mkRun "ab".data]⟩] 1).getD 0 dfltSeg).text).take 1 ∧
    ((make_segments [⟨[mkRun "ab".data]⟩] 1).getD 0 dfltSeg).context_right =
      (((make_segments [⟨[mkRun "ab".data]⟩] 1).getD 0 dfltSeg).text).drop
        ((((make_segments [⟨[mkRun "ab".data]⟩] 1).getD 0 dfltSeg).text).length - 1) :=
  ⟨(make_segments_contexts [⟨[mkRun "ab".data]⟩] 1 0 (by decide)).1,
   (make_segments_contexts [⟨[mkRun "ab".data]⟩] 1 0 (by decide)).2.1 (by decide)⟩

/-! ### Lemmas about `insert_paragraph_after` -/

/-- Indexing an insert-after list at the insertion point gives the new
element. -/
theorem getD_insert_self {α : Type} (l : List α) (x : α) (j : Nat) (d : α)
    (hj : j < l.length) :
    (l.take (j + 1) ++ x :: l.drop (j + 1)).getD (j + 1) d = x := by
  have hlt : (l.take (j + 1)).length = j + 1 := by simp; omega
  simp only [List.getD, List.get?_eq_getElem?, List.getElem?_append, hlt]
  rw [if_neg (by omega)]
  simp

/-- Indexing an insert-after list before the insertion point is unchanged. -/
theorem getD_insert_le {α : Type} (l : List α) (x : α) (j k : Nat) (d : α)
    (hj : j < l.length) (hk : k ≤ j) :
    (l.take (j + 1) ++ x :: l.drop (j + 1)).getD k d = l.getD k d := by
  have hlt : (l.take (j + 1)).length = j + 1 := by simp; omega
  simp only [List.getD, List.get?_eq_getElem?, List.getElem?_append, hlt]
  rw [if_pos (by omega)]
  rw [List.getElem?_take]
  rw [if_pos (by omega)]

/-- Indexing an insert-after list past the insertion point shifts by one. -/
theorem getD_insert_gt {α : Type} (l : List α) (x : α) (j k : Nat) (d : α)
    (hj : j < l.length) (h1 : j < k) :
    (l.take (j + 1) ++ x :: l.drop (j + 1)).getD (k + 1) d = l.getD k d := by
  have hlt : (l.take (j + 1)).length = j + 1 := by simp; omega
  simp only [List.getD, List.get?_eq_getElem?, List.getElem?_append, hlt]
  rw [if_neg (by omega)]
  have h3 : k + 1 - (j + 1) = (k - j - 1) + 1 := by omega
  rw [h3]
  simp only [List.getElem?_cons_succ, List.getElem?_drop]
  congr 2
  omega

/-- C4: for a valid paragraph index, `insert_paragraph_after` grows the
document by exactly one paragraph, places the new paragraph immediately
after the given one (earlier paragraphs stay in place, later ones shift by
one, preserving relative order), gives it exactly the requested text, and
returns that new paragraph. -/
theorem insert_paragraph_after_spec (doc : List Paragraph) (j : Nat) (t : List Char)
    (cs : Bool) (hj : j < doc.length) :
    (insert_paragraph_after doc j t cs).1.length = doc.length + 1 ∧
    (insert_paragraph_after doc j t cs).1.getD (j + 1) emptyPara =
      (insert_paragraph_after doc j t cs).2 ∧
    paraText (insert_paragraph_after doc j t cs).2 = t ∧
    (∀ k, k ≤ j →
      (insert_paragraph_after doc j t cs).1.getD k emptyPara = doc.getD k emptyPara) ∧
    (∀ k, j < k → k < doc.length →
      (insert_paragraph_after doc j t cs).1.getD (k + 1) emptyPara = doc.getD k emptyPara) := by
  have hres : (insert_paragraph_after doc j t cs).1 =
      doc.take (j + 1) ++ (insert_paragraph_after doc j t cs).2 :: doc.drop (j + 1) := rfl
  refine ⟨?_, ?_, ?_, ?_, ?_⟩
  · rw [hres]; simp; omega
  · rw [hres]; exact getD_insert_self doc _ j emptyPara hj
  · unfold insert_paragraph_after
    cases cs with
    | false => simp [paraText, mkRun]
    | true =>
      cases hr : (doc[j]?.getD emptyPara).runs with
      | nil => simp [hr, paraText, mkRun]
      | cons a l => simp [hr, paraText, copy_run_style_text, mkRun]
  · intro k hk
    rw [hres]; exact getD_insert_le doc _ j k emptyPara hj hk
  · intro k h1 _h2
    rw [hres]; exact getD_insert_gt doc _ j k emptyPara hj h1

/-- C4 witness: insertion into a concrete two-paragraph document. -/
theorem insert_paragraph_after_spec_witness :
    (0 < ([⟨[mkRun "a".data]⟩, ⟨[]⟩] : List Paragraph).length) ∧
    ((insert_paragraph_after [⟨[mkRun "a".data]⟩, ⟨[]⟩] 0 "t".data true).1.length =
      ([⟨[mkRun "a".data]⟩, ⟨[]⟩] : List Paragraph).length + 1 ∧
    (insert_paragraph_after [⟨[mkRun "a".data]⟩, ⟨[]⟩] 0 "t".data true).1.getD (0 + 1) emptyPara =
      (insert_paragraph_after [⟨[mkRun "a".data]⟩, ⟨[]⟩] 0 "t".data true).2 ∧
    paraText (insert_paragraph_after [⟨[mkRun "a".data]⟩, ⟨[]⟩] 0 "t".data true).2 = "t".data ∧
    (∀ k, k ≤ 0 →
      (insert_paragraph_after [⟨[mkRun "a".data]⟩, ⟨[]⟩] 0 "t".data true).1.getD k emptyPara =
        ([⟨[mkRun "a".data]⟩, ⟨[]⟩] : List Paragraph).getD k emptyPara) ∧
    (∀ k, 0 < k → k < ([⟨[mkRun "a".data]⟩, ⟨[]⟩] : List Paragraph).length →
      (insert_paragraph_after [⟨[mkRun "a".data]⟩, ⟨[]⟩] 0 "t".data true).1.getD (k + 1) emptyPara =
        ([⟨[mkRun "a".data]⟩, ⟨[]⟩] : List Paragraph).getD k emptyPara)) :=
  ⟨by decide, insert_paragraph_after_spec [⟨[mkRun "a".data]⟩, ⟨[]⟩] 0 "t".data true (by decide)⟩

/-! ### Lemmas about the style donor (`first_affected`) -/

/-- Total character length of a list of runs. -/
def sumLen (rs : List Run) : Nat :=
  (rs.map (fun r => r.text.length)).sum

/-- Cumulative character offset of run `k`: the total length of runs
before it. -/
def runOffset (runs : List Run) (k : Nat) : Nat :=
  sumLen (runs.take k)

/-- Run `k`'s half-open character range `[offset, offset + len)` overlaps
the span `[start, stop)`. -/
def overlapsB (runs : List Run) (k start stop : Nat) : Prop :=
  runOffset runs k < stop ∧ start < runOffset runs k + ((runs.getD k (mkRun [])).text).length

instance (runs : List Run) (k start stop : Nat) :
    Decidable (overlapsB runs k start stop) := by
  unfold overlapsB
  infer_instance

/-- If no run (relative to base offset `pos`) overlaps `[start, stop)`, the
scan returns `none`. -/
theorem first_affected_from_eq_none (start stop : Nat) (l : List Run) (ri pos : Nat)
    (h : ∀ k, k < l.length →
      ¬ (pos + sumLen (l.take k) + ((l.getD k (mkRun [])).text).length > start ∧
         pos + sumLen (l.take k) < stop)) :
    first_affected_from start stop l ri pos = none := by
  induction l generalizing ri pos with
  | nil => rfl
  | cons r rest ih =>
    have h0 := h 0 (by simp)
    simp only [List.take_zero, sumLen, List.map_nil, List.sum_nil, List.getD_cons_zero] at h0
    unfold first_affected_from
    rw [if_neg (by omega)]
    apply ih
    intro k hk
    have hk1 := h (k + 1) (by simpa using Nat.succ_lt_succ hk)
    simp only [List.take_succ_cons, sumLen, List.map_cons, List.sum_cons,
      List.getD_cons_succ] at hk1
    simp only [sumLen]
    omega

/-- If run `k` (relative to base offset `pos`) is the first to overlap
`[start, stop)`, the scan returns index `ri + k`. -/
theorem first_affected_from_eq_some (start stop : Nat) (l : List Run) (ri pos k : Nat)
    (hk : k < l.length)
    (hP : pos + sumLen (l.take k) + ((l.getD k (mkRun [])).text).length > start ∧
          pos + sumLen (l.take k) < stop)
    (hleast : ∀ m, m < k →
      ¬ (pos + sumLen (l.take m) + ((l.getD m (mkRun [])).text).length > start ∧
         pos + sumLen (l.take m) < stop)) :
    first_affected_from start stop l ri pos = some (ri + k) := by
  induction l generalizing ri pos k with
  | nil => simp at hk
  | cons r rest ih =>
    cases k with
    | zero =>
      simp only [List.take_zero, sumLen, List.map_nil, List.sum_nil,
        List.getD_cons_zero] at hP
      unfold first_affected_from
      rw [if_pos (by omega)]
      simp
    | succ m =>
      have h0 := hleast 0 (Nat.succ_pos m)
      simp only [List.take_zero, sumLen, List.map_nil, List.sum_nil,
        List.getD_cons_zero] at h0
      unfold first_affected_from
      rw [if_neg (by omega)]
      have hres := ih (ri + 1) (pos + r.text.length) m (by simpa using hk)
        (by
          simp only [List.take_succ_cons, sumLen, List.map_cons, List.sum_cons,
            List.getD_cons_succ] at hP
          simp only [sumLen]
          omega)
        (by
          intro n hn
          have := hleast (n + 1) (Nat.succ_lt_succ hn)
          simp only [List.take_succ_cons, sumLen, List.map_cons, List.sum_cons,
            List.getD_cons_succ] at this
          simp only [sumLen]
          omega)
      rw [hres]
      congr 1
      omega

/-- Copying style onto a fresh run sets exactly the donor's four style
attributes (the fresh run's style is `none`, so the conditional copy always
ends at the donor's value). -/
theorem copy_run_style_mkRun (src : Run) (t : List Char) :
    copy_run_style src (mkRun t) =
      { text := t, style := src.style, bold := src.bold, italic := src.italic,
        underline := src.underline } := by
  unfold copy_run_style mkRun
  cases h : src.style with
  | none => simp [h]
  | some s => simp [h]

/-- A paragraph containing a non-empty excerpt has at least one run. -/
theorem runs_ne_nil_of_occurs {p : Paragraph} {old : List Char} {i : Nat}
    (hne : old ≠ []) (hocc : occursAtB old (paraText p) i = true) : p.runs ≠ [] := by
  intro h
  rw [occursAtB, paraText, h] at hocc
  simp at hocc
  exact hne hocc

/-- C8: on a successful replacement the style donor is the first run (in run
order, by cumulative character offset) whose range `[offset, offset+len)`
overlaps the match span `[start, end)`; if no run overlaps, run index 0 is
used; the new single run's character style, bold, italic and underline come
from that donor. -/
theorem replace_style_donor (p : Paragraph) (old new : List Char) (i : Nat)
    (hne : old ≠ [])
    (hocc : occursAtB old (paraText p) i = true)
    (hleast : ∀ j, j < i → occursAtB old (paraText p) j = false) :
    ((∀ k, k < p.runs.length → ¬ overlapsB p.runs k i (i + old.length)) →
      (replace_first_occurrence_in_runs p old new).2.runs.map
          (fun r => (r.style, r.bold, r.italic, r.underline)) =
        [((p.runs.getD 0 (mkRun [])).style, (p.runs.getD 0 (mkRun [])).bold,
          (p.runs.getD 0 (mkRun [])).italic, (p.runs.getD 0 (mkRun [])).underline)]) ∧
    (∀ d, d < p.runs.length → overlapsB p.runs d i (i + old.length) →
      (∀ m, m < d → ¬ overlapsB p.runs m i (i + old.length)) →
      (replace_first_occurrence_in_runs p old new).2.runs.map
          (fun r => (r.style, r.bold, r.italic, r.underline)) =
        [((p.runs.getD d (mkRun [])).style, (p.runs.getD d (mkRun [])).bold,
          (p.runs.getD d (mkRun [])).italic, (p.runs.getD d (mkRun [])).underline)]) := by
  have hfind : findSub old (paraText p) = some i := findSub_eq_some_of_first hocc hleast
  have hconc : (p.runs.map Run.text).flatten = paraText p := rfl
  have hrunsne : p.runs ≠ [] := runs_ne_nil_of_occurs hne hocc
  constructor
  · intro hnone
    have hfa : first_affected p.runs i (i + old.length) = none := by
      unfold first_affected
      apply first_affected_from_eq_none
      intro k hk
      have hnk := hnone k hk
      unfold overlapsB runOffset at hnk
      omega
    simp only [replace_first_occurrence_in_runs, hconc, hfind, if_neg hne, hfa]
    cases hr : p.runs with
    | nil => exact absurd hr hrunsne
    | cons a l => simp [copy_run_style_mkRun]
  · intro d hd hov hleast2
    unfold overlapsB runOffset at hov
    have hfa : first_affected p.runs i (i + old.length) = some d := by
      unfold first_affected
      have h0 := first_affected_from_eq_some i (i + old.length) p.runs 0 0 d hd
        (by constructor <;> omega)
        (by
          intro m hm
          have hm2 := hleast2 m hm
          unfold overlapsB runOffset at hm2
          omega)
      simpa using h0
    simp only [replace_first_occurrence_in_runs, hconc, hfind, if_neg hne, hfa]
    cases hr : p.runs with
    | nil => exact absurd hr hrunsne
    | cons a l => simp [copy_run_style_mkRun]

/-- C8 witness: the excerpt sits in the second (italic) run, so that run is
the donor. -/
theorem replace_style_donor_witness :
    (overlapsB [{ mkRun "ab".data with bold := some true },
        { mkRun "cd".data with italic := some true }] 1 2 (2 + "cd".data.length)) ∧
    (replace_first_occurrence_in_runs
        ⟨[{ mkRun "ab".data with bold := some true },
          { mkRun "cd".data with italic := some true }]⟩ "cd".data "X".data).2.runs.map
        (fun r => (r.style, r.bold, r.italic, r.underline)) =
      [(([{ mkRun "ab".data with bold := some true },
          { mkRun "cd".data with italic := some true }].getD 1 (mkRun [])).style,
        ([{ mkRun "ab".data with bold := some true },
          { mkRun "cd".data with italic := some true }].getD 1 (mkRun [])).bold,
        ([{ mkRun "ab".data with bold := some true },
          { mkRun "cd".data with italic := some true }].getD 1 (mkRun [])).italic,
        ([{ mkRun "ab".data with bold := some true },
          { mkRun "cd".data with italic := some true }].getD 1 (mkRun [])).underline)] :=
  ⟨by decide,
   (replace_style_donor
      ⟨[{ mkRun "ab".data with bold := some true },
        { mkRun "cd".data with italic := some true }]⟩ "cd".data "X".data 2
      (by decide) (by decide)
      (by
        intro j hj
        interval_cases j
        all_goals decide)).2 1 (by decide) (by decide)
      (by
        intro m hm
        interval_cases m
        all_goals decide)⟩

/-! ### Frame and robustness properties of the patch loop -/

/-- A single patch step never writes to the segments component. -/
theorem apply_one_edit_segments (segments : List Segment) (st : ApplyState) (e : Edit) :
    (apply_one_edit segments st e).segments = st.segments := by
  unfold apply_one_edit
  split
  · rfl
  · split
    · rfl
    · split
      · dsimp only
        split
        · rfl
        · split
          · rfl
          · rfl
      · split
        · dsimp only
          split
          · rfl
          · rfl
        · rfl

/-- The whole patch loop never writes to the segments component. -/
theorem foldl_apply_one_edit_segments (segments : List Segment) (edits : List Edit)
    (st : ApplyState) :
    (edits.foldl (apply_one_edit segments) st).segments = st.segments := by
  induction edits generalizing st with
  | nil => rfl
  | cons e rest ih =>
    rw [List.foldl_cons, ih, apply_one_edit_segments]

/-- C10: `apply_patch_to_doc` never modifies the segments: afterwards the
list has the same length and every segment has the same id, kind,
para_idx, text, context_left and context_right as before, whatever the
edits did. -/
theorem apply_patch_segments_frame (doc : List Paragraph) (segments : List Segment)
    (patch : Patch) :
    (apply_patch_to_doc doc segments patch).segments.length = segments.length ∧
    ∀ i,
      ((apply_patch_to_doc doc segments patch).segments.getD i dfltSeg).id =
        (segments.getD i dfltSeg).id ∧
      ((apply_patch_to_doc doc segments patch).segments.getD i dfltSeg).kind =
        (segments.getD i dfltSeg).kind ∧
      ((apply_patch_to_doc doc segments patch).segments.getD i dfltSeg).para_idx =
        (segments.getD i dfltSeg).para_idx ∧
      ((apply_patch_to_doc doc segments patch).segments.getD i dfltSeg).text =
        (segments.getD i dfltSeg).text ∧
      ((apply_patch_to_doc doc segments patch).segments.getD i dfltSeg).context_left =
        (segments.getD i dfltSeg).context_left ∧
      ((apply_patch_to_doc doc segments patch).segments.getD i dfltSeg).context_right =
        (segments.getD i dfltSeg).context_right := by
  have h : (apply_patch_to_doc doc segments patch).segments = segments :=
    foldl_apply_one_edit_segments segments (patch.edits.getD []) ⟨doc, segments, ⟨[], []⟩⟩
  rw [h]
  exact ⟨rfl, fun i => ⟨rfl, rfl, rfl, rfl, rfl, rfl⟩⟩

/-- C9: `apply_patch_to_doc` is total on structurally incomplete input: a
patch without an `edits` key yields an empty report and an unchanged
document; an edit with a missing or falsy id is skipped as `unknown_id`; a
resolvable edit (with a live paragraph index) missing its `op` key is
skipped as `unsupported_op:None`; a supported op with a missing `new_text`
key is treated as empty text and skipped as `empty_new_text`. -/
theorem apply_patch_structural :
    (∀ (doc : List Paragraph) (segments : List Segment) (docid : List Char),
      apply_patch_to_doc doc segments ⟨docid, none⟩ = ⟨doc, segments, ⟨[], []⟩⟩) ∧
    (∀ (doc : List Paragraph) (segments : List Segment) (docid : List Char) (e : Edit),
      e.id = none ∨ e.id = some [] →
      apply_patch_to_doc doc segments ⟨docid, some [e]⟩ =
        ⟨doc, segments, ⟨[], [⟨e.id, "unknown_id".data⟩]⟩⟩) ∧
    (∀ (doc : List Paragraph) (segments : List Segment) (docid : List Char) (e : Edit)
      (seg : Segment),
      resolve_id segments e.id = some seg →
      seg.para_idx < doc.length →
      e.op = none →
      apply_patch_to_doc doc segments ⟨docid, some [e]⟩ =
        ⟨doc, segments, ⟨[], [⟨e.id, "unsupported_op:None".data⟩]⟩⟩) ∧
    (∀ (doc : List Paragraph) (segments : List Segment) (docid : List Char) (e : Edit)
      (seg : Segment),
      resolve_id segments e.id = some seg →
      seg.para_idx < doc.length →
      (e.op = some "replace_text".data ∨ e.op = some "insert_after".data) →
      e.new_text = none →
      apply_patch_to_doc doc segments ⟨docid, some [e]⟩ =
        ⟨doc, segments, ⟨[], [⟨e.id, "empty_new_text".data⟩]⟩⟩) := by
  refine ⟨fun doc segments docid => rfl, ?_, ?_, ?_⟩
  · intro doc segments docid e hid
    have hres : resolve_id segments e.id = none := by
      rcases hid with h | h
      · rw [h]; rfl
      · rw [h]; simp [resolve_id]
    have h1 : apply_patch_to_doc doc segments ⟨docid, some [e]⟩ =
        apply_one_edit segments ⟨doc, segments, ⟨[], []⟩⟩ e := rfl
    rw [h1]
    unfold apply_one_edit
    rw [hres]
    simp [skipEdit]
  · intro doc segments docid e seg hres hpar hop
    have h1 : apply_patch_to_doc doc segments ⟨docid, some [e]⟩ =
        apply_one_edit segments ⟨doc, segments, ⟨[], []⟩⟩ e := rfl
    rw [h1]
    unfold apply_one_edit
    rw [hres]
    dsimp only
    obtain ⟨p, hp⟩ : ∃ p, doc.get? seg.para_idx = some p := by
      cases hg : doc.get? seg.para_idx with
      | none => exact absurd (List.get?_eq_none.mp hg) (by omega)
      | some p => exact ⟨p, rfl⟩
    rw [hp]
    dsimp only
    rw [hop]
    rw [if_neg (by decide), if_neg (by decide)]
    simp [skipEdit, unsupported_reason]
  · intro doc segments docid e seg hres hpar hop hnt
    have h1 : apply_patch_to_doc doc segments ⟨docid, some [e]⟩ =
        apply_one_edit segments ⟨doc, segments, ⟨[], []⟩⟩ e := rfl
    rw [h1]
    unfold apply_one_edit
    rw [hres]
    dsimp only
    obtain ⟨p, hp⟩ : ∃ p, doc.get? seg.para_idx = some p := by
      cases hg : doc.get? seg.para_idx with
      | none => exact absurd (List.get?_eq_none.mp hg) (by omega)
      | some p => exact ⟨p, rfl⟩
    rw [hp]
    dsimp only
    rcases hop with h | h
    · rw [h]
      rw [if_pos rfl]
      rw [hnt]
      simp [skipEdit]
    · rw [h]
      rw [if_neg (by decide), if_pos rfl]
      rw [hnt]
      simp [skipEdit]

/-- C9 witness: one concrete instance of each of the four parts. -/
theorem apply_patch_structural_witness :
    (apply_patch_to_doc [⟨[mkRun "a".data]⟩] [] ⟨"d".data, none⟩ =
      ⟨[⟨[mkRun "a".data]⟩], [], ⟨[], []⟩⟩) ∧
    (apply_patch_to_doc [⟨[mkRun "a".data]⟩] [] ⟨"d".data,
        some [⟨none, some "replace_text".data, none, some "x".data⟩]⟩ =
      ⟨[⟨[mkRun "a".data]⟩], [], ⟨[], [⟨none, "unknown_id".data⟩]⟩⟩) ∧
    (apply_patch_to_doc [⟨[mkRun "a".data]⟩] [⟨"s".data, "paragraph".data, 0, [], [], []⟩]
        ⟨"d".data, some [⟨some "s".data, none, none, none⟩]⟩ =
      ⟨[⟨[mkRun "a".data]⟩], [⟨"s".data, "paragraph".data, 0, [], [], []⟩],
        ⟨[], [⟨some "s".data, "unsupported_op:None".data⟩]⟩⟩) ∧
    (apply_patch_to_doc [⟨[mkRun "a".data]⟩] [⟨"s".data, "paragraph".data, 0, [], [], []⟩]
        ⟨"d".data, some [⟨some "s".data, some "insert_after".data, none, none⟩]⟩ =
      ⟨[⟨[mkRun "a".data]⟩], [⟨"s".data, "paragraph".data, 0, [], [], []⟩],
        ⟨[], [⟨some "s".data, "empty_new_text".data⟩]⟩⟩) :=
  ⟨apply_patch_structural.1 [⟨[mkRun "a".data]⟩] [] "d".data,
   apply_patch_structural.2.1 [⟨[mkRun "a".data]⟩] [] "d".data
     ⟨none, some "replace_text".data, none, some "x".data⟩ (Or.inl rfl),
   apply_patch_structural.2.2.1 [⟨[mkRun "a".data]⟩]
     [⟨"s".data, "paragraph".data, 0, [], [], []⟩] "d".data
     ⟨some "s".data, none, none, none⟩ ⟨"s".data, "paragraph".data, 0, [], [], []⟩
     (by decide) (by decide) rfl,
   apply_patch_structural.2.2.2 [⟨[mkRun "a".data]⟩]
     [⟨"s".data, "paragraph".data, 0, [], [], []⟩] "d".data
     ⟨some "s".data, some "insert_after".data, none, none⟩
     ⟨"s".data, "paragraph".data, 0, [], [], []⟩
     (by decide) (by decide) (Or.inr rfl) rfl⟩

/-! ### Refinement: the patch router against the spec's per-edit cascade -/

/-- Outcome of one edit, as the spec describes it. -/
inductive EditOutcome where
  | applied (d : List Paragraph)
  | skipped (reason : List Char)
deriving DecidableEq, Repr

/-- Refinement side, written from the spec's words: classify one edit with
the checks in the prescribed priority order — unknown id first, then a
stale paragraph index, then empty `new_text` for either supported op, then
replacer failure, and `unsupported_op:<op>` for any other op. -/
def spec_edit_outcome (segments : List Segment) (doc : List Paragraph) (edit : Edit) :
    EditOutcome :=
  match resolve_id segments edit.id with
  | none => .skipped "unknown_id".data
  | some seg =>
    if doc.length ≤ seg.para_idx then .skipped "para_idx_out_of_range".data
    else if (edit.op = some "replace_text".data ∨ edit.op = some "insert_after".data) ∧
        edit.new_text.getD [] = [] then
      .skipped "empty_new_text".data
    else if edit.op = some "replace_text".data then
      if (replace_first_occurrence_in_runs (doc.getD seg.para_idx emptyPara)
          (edit.old_excerpt.getD []) (edit.new_text.getD [])).1 then
        .applied (doc.set seg.para_idx
          (replace_first_occurrence_in_runs (doc.getD seg.para_idx emptyPara)
            (edit.old_excerpt.getD []) (edit.new_text.getD [])).2)
      else .skipped "old_excerpt_not_found".data
    else if edit.op = some "insert_after".data then
      .applied (insert_paragraph_after doc seg.para_idx (edit.new_text.getD []) true).1
    else .skipped (unsupported_reason edit.op)

/-- Spec-side per-edit step: an applied edit is recorded in `applied` with
the updated document, a skipped edit adds exactly one skip entry. -/
def spec_apply_step (segments : List Segment) (st : ApplyState) (edit : Edit) : ApplyState :=
  match spec_edit_outcome segments st.doc edit with
  | .applied d => applyEdit st edit d
  | .skipped r => skipEdit st edit r

/-- Spec-side patch application: edits evaluated independently, in patch
order. -/
def spec_apply_patch (doc : List Paragraph) (segments : List Segment) (patch : Patch) :
    ApplyState :=
  (patch.edits.getD []).foldl (spec_apply_step segments) ⟨doc, segments, ⟨[], []⟩⟩

/-- The code's per-edit step agrees with the spec's cascade. -/
theorem apply_one_edit_eq_spec (segments : List Segment) (st : ApplyState) (e : Edit) :
    apply_one_edit segments st e = spec_apply_step segments st e := by
  unfold apply_one_edit spec_apply_step spec_edit_outcome
  cases hres : resolve_id segments e.id with
  | none => rfl
  | some seg =>
    dsimp only
    cases hget : st.doc.get? seg.para_idx with
    | none =>
      have hlen : st.doc.length ≤ seg.para_idx := List.get?_eq_none.mp hget
      rw [if_pos hlen]
    | some p =>
      have hlt : seg.para_idx < st.doc.length := by
        by_contra hge
        rw [List.get?_eq_none.mpr (by omega)] at hget
        exact Option.noConfusion hget
      have hlenf : ¬ st.doc.length ≤ seg.para_idx := by omega
      have hp : st.doc.getD seg.para_idx emptyPara = p := by
        rw [List.getD_eq_getD_get?, hget]
        rfl
      have hp2 : st.doc[seg.para_idx]?.getD emptyPara = p := by
        rw [← List.get?_eq_getElem?, hget]
        rfl
      by_cases hop1 : e.op = some "replace_text".data
      · by_cases hnt : e.new_text.getD [] = []
        · simp +decide [hop1, hnt, hlenf]
        · by_cases hok : (replace_first_occurrence_in_runs p
              (e.old_excerpt.getD []) (e.new_text.getD [])).1 = true
          · simp +decide [hop1, hnt, hlenf, hp, hp2, hok]
          · simp +decide [hop1, hnt, hlenf, hp, hp2, hok]
      · by_cases hop2 : e.op = some "insert_after".data
        · by_cases hnt : e.new_text.getD [] = []
          · simp +decide [hop1, hop2, hnt, hlenf]
          · simp +decide [hop1, hop2, hnt, hlenf, hp]
        · simp +decide [hop1, hop2, hlenf]

/-- Each step grows the report by exactly one entry. -/
theorem apply_one_edit_report_count (segments : List Segment) (st : ApplyState) (e : Edit) :
    (apply_one_edit segments st e).report.applied.length +
      (apply_one_edit segments st e).report.skipped.length =
      st.report.applied.length + st.report.skipped.length + 1 := by
  rw [apply_one_edit_eq_spec]
  unfold spec_apply_step
  cases spec_edit_outcome segments st.doc e with
  | applied d =>
    simp [applyEdit]
    omega
  | skipped r =>
    simp [skipEdit]
    omega

/-- Over a whole edit list the report gains one entry per edit. -/
theorem foldl_report_count (segments : List Segment) (edits : List Edit) (st : ApplyState) :
    (edits.foldl (apply_one_edit segments) st).report.applied.length +
      (edits.foldl (apply_one_edit segments) st).report.skipped.length =
      st.report.applied.length + st.report.skipped.length + edits.length := by
  induction edits generalizing st with
  | nil => simp
  | cons e rest ih =>
    rw [List.foldl_cons, ih, apply_one_edit_report_count]
    simp
    omega

/-- C2: `apply_patch_to_doc` evaluates each edit independently in patch
order, the per-edit outcome follows the spec's priority cascade (unknown
id, stale index, empty new text, replacer failure, unsupported op), every
edit contributes exactly one entry to `applied` or `skipped`, and the
function is total (the embedding is a pure function, so no exception can
propagate). -/
theorem apply_patch_report_spec (doc : List Paragraph) (segments : List Segment)
    (patch : Patch) :
    apply_patch_to_doc doc segments patch = spec_apply_patch doc segments patch ∧
    (apply_patch_to_doc doc segments patch).report.applied.length +
      (apply_patch_to_doc doc segments patch).report.skipped.length =
      (patch.edits.getD []).length := by
  constructor
  · unfold apply_patch_to_doc spec_apply_patch
    have h : ∀ (edits : List Edit) (st : ApplyState),
        edits.foldl (apply_one_edit segments) st = edits.foldl (spec_apply_step segments) st := by
      intro edits
      induction edits with
      | nil => intro st; rfl
      | cons e rest ih =>
        intro st
        rw [List.foldl_cons, List.foldl_cons, apply_one_edit_eq_spec, ih]
    exact h _ _
  · have h := foldl_report_count segments (patch.edits.getD []) ⟨doc, segments, ⟨[], []⟩⟩
    unfold apply_patch_to_doc
    simpa using h

/-- Edit A of the end-to-end scenario: replace `old` in `p-0003` by `"X"`. -/
def c7_editA (old : List Char) : Edit :=
  ⟨some "p-0003".data, some "replace_text".data, some old, some "X".data⟩

/-- Edit B of the end-to-end scenario: insert `"Y"` after `p-0005`. -/
def c7_editB : Edit :=
  ⟨some "p-0005".data, some "insert_after".data, none, some "Y".data⟩

/-- The scenario's two-edit patch. -/
def c7_patch (old : List Char) : Patch :=
  ⟨"doc".data, some [c7_editA old, c7_editB]⟩

/-- C7 (amended): for a 6-paragraph document segmented by `make_segments`
and a patch `[A, B]` with A replacing a NON-EMPTY excerpt of paragraph
index 2 (first occurrence at `i`) by `"X"` and B inserting `"Y"` after
`p-0005`, the result has 7 paragraphs, paragraph 2 carries `"X"` in place
of the excerpt's first occurrence, a paragraph with text `"Y"` sits at
index 5 immediately after original paragraph index 4 (still at index 4),
and the report is `{"applied": [A, B], "skipped": []}`. -/
theorem apply_patch_scenario (doc : List Paragraph) (old : List Char) (i : Nat)
    (hdoc : doc.length = 6) (hne : old ≠ [])
    (hocc : occursAtB old (paraText (doc.getD 2 emptyPara)) i = true)
    (hleast : ∀ j, j < i → occursAtB old (paraText (doc.getD 2 emptyPara)) j = false) :
    (apply_patch_to_doc doc (make_segments doc 80) (c7_patch old)).doc.length = 7 ∧
    paraText ((apply_patch_to_doc doc (make_segments doc 80) (c7_patch old)).doc.getD 2 emptyPara) =
      (paraText (doc.getD 2 emptyPara)).take i ++ "X".data ++
        (paraText (doc.getD 2 emptyPara)).drop (i + old.length) ∧
    paraText ((apply_patch_to_doc doc (make_segments doc 80) (c7_patch old)).doc.getD 5 emptyPara) =
      "Y".data ∧
    (apply_patch_to_doc doc (make_segments doc 80) (c7_patch old)).doc.getD 4 emptyPara =
      doc.getD 4 emptyPara ∧
    (apply_patch_to_doc doc (make_segments doc 80) (c7_patch old)).report =
      ⟨[c7_editA old, c7_editB], []⟩ := by
  obtain ⟨p0, p1, p2, p3, p4, p5, rfl⟩ :
      ∃ p0 p1 p2 p3 p4 p5, doc = [p0, p1, p2, p3, p4, p5] := by
    rcases doc with _ | ⟨p0, doc⟩
    · simp at hdoc
    rcases doc with _ | ⟨p1, doc⟩
    · simp at hdoc
    rcases doc with _ | ⟨p2, doc⟩
    · simp at hdoc
    rcases doc with _ | ⟨p3, doc⟩
    · simp at hdoc
    rcases doc with _ | ⟨p4, doc⟩
    · simp at hdoc
    rcases doc with _ | ⟨p5, doc⟩
    · simp at hdoc
    rcases doc with _ | ⟨p6, doc⟩
    · exact ⟨p0, p1, p2, p3, p4, p5, rfl⟩
    · simp at hdoc
  have hocc2 : occursAtB old (paraText p2) i = true := by simpa using hocc
  have hleast2 : ∀ j, j < i → occursAtB old (paraText p2) j = false := by
    intro j hj
    have := hleast j hj
    simpa using this
  have hspec := replace_first_occurrence_spec p2 old "X".data i hne hocc2 hleast2
  have hok : (replace_first_occurrence_in_runs p2 old "X".data).1 = true := hspec.1
  have htext : paraText (replace_first_occurrence_in_runs p2 old "X".data).2 =
      (paraText p2).take i ++ "X".data ++ (paraText p2).drop (i + old.length) := by
    rw [paraText, hspec.2]
    simp
  have hpipe : apply_patch_to_doc [p0, p1, p2, p3, p4, p5]
        (make_segments [p0, p1, p2, p3, p4, p5] 80) (c7_patch old) =
      apply_one_edit (make_segments [p0, p1, p2, p3, p4, p5] 80)
        (apply_one_edit (make_segments [p0, p1, p2, p3, p4, p5] 80)
          ⟨[p0, p1, p2, p3, p4, p5], make_segments [p0, p1, p2, p3, p4, p5] 80, ⟨[], []⟩⟩
          (c7_editA old))
        c7_editB := rfl
  have hstepA : apply_one_edit (make_segments [p0, p1, p2, p3, p4, p5] 80)
        ⟨[p0, p1, p2, p3, p4, p5], make_segments [p0, p1, p2, p3, p4, p5] 80, ⟨[], []⟩⟩
        (c7_editA old) =
      ⟨[p0, p1, (replace_first_occurrence_in_runs p2 old "X".data).2, p3, p4, p5],
        make_segments [p0, p1, p2, p3, p4, p5] 80, ⟨[c7_editA old], []⟩⟩ := by
    have hsplit : apply_one_edit (make_segments [p0, p1, p2, p3, p4, p5] 80)
        ⟨[p0, p1, p2, p3, p4, p5], make_segments [p0, p1, p2, p3, p4, p5] 80, ⟨[], []⟩⟩
        (c7_editA old) =
        if (replace_first_occurrence_in_runs p2 old "X".data).1 = true then
          ⟨[p0, p1, (replace_first_occurrence_in_runs p2 old "X".data).2, p3, p4, p5],
            make_segments [p0, p1, p2, p3, p4, p5] 80, ⟨[c7_editA old], []⟩⟩
        else
          ⟨[p0, p1, p2, p3, p4, p5], make_segments [p0, p1, p2, p3, p4, p5] 80,
            ⟨[], [⟨(c7_editA old).id, "old_excerpt_not_found".data⟩]⟩⟩ := rfl
    rw [hsplit, if_pos hok]
  have hstepB : apply_one_edit (make_segments [p0, p1, p2, p3, p4, p5] 80)
        ⟨[p0, p1, (replace_first_occurrence_in_runs p2 old "X".data).2, p3, p4, p5],
          make_segments [p0, p1, p2, p3, p4, p5] 80, ⟨[c7_editA old], []⟩⟩ c7_editB =
      ⟨[p0, p1, (replace_first_occurrence_in_runs p2 old "X".data).2, p3, p4,
          (insert_paragraph_after
            [p0, p1, (replace_first_occurrence_in_runs p2 old "X".data).2, p3, p4, p5]
            4 "Y".data true).2, p5],
        make_segments [p0, p1, p2, p3, p4, p5] 80, ⟨[c7_editA old, c7_editB], []⟩⟩ := rfl
  have hY : paraText (insert_paragraph_after
      [p0, p1, (replace_first_occurrence_in_runs p2 old "X".data).2, p3, p4, p5]
      4 "Y".data true).2 = "Y".data :=
    (insert_paragraph_after_spec
      [p0, p1, (replace_first_occurrence_in_runs p2 old "X".data).2, p3, p4, p5]
      4 "Y".data true (by simp)).2.2.1
  rw [hpipe, hstepA, hstepB]
  refine ⟨by simp, ?_, ?_, by simp, rfl⟩
  · simpa using htext
  · simpa using hY

/-- A concrete six-paragraph document for the scenario. -/
def c7_doc : List Paragraph :=
  [⟨[mkRun "alpha".data]⟩, ⟨[mkRun "beta".data]⟩, ⟨[mkRun "hello".data]⟩,
   ⟨[mkRun "delta".data]⟩, ⟨[mkRun "epsilon".data]⟩, ⟨[mkRun "zeta".data]⟩]

/-- C7 counterexample: the empty excerpt is a substring of paragraph index
2's text, yet the code skips edit A (`replace_first_occurrence_in_runs`
rejects an empty excerpt), so the claimed report
`{"applied": [A, B], "skipped": []}` is not produced. -/
theorem apply_patch_scenario_counterexample :
    (occursAtB [] (paraText (c7_doc.getD 2 emptyPara)) 0 = true) ∧
    ¬ ((apply_patch_to_doc c7_doc (make_segments c7_doc 80) (c7_patch [])).report =
        ⟨[c7_editA [], c7_editB], []⟩) := by
  decide

/-- C7 witness: the scenario on a concrete document with excerpt `"ell"`. -/
theorem apply_patch_scenario_witness :
    (c7_doc.length = 6) ∧ ("ell".data ≠ []) ∧
    (occursAtB "ell".data (paraText (c7_doc.getD 2 emptyPara)) 1 = true) ∧
    ((apply_patch_to_doc c7_doc (make_segments c7_doc 80) (c7_patch "ell".data)).doc.length = 7 ∧
     paraText ((apply_patch_to_doc c7_doc (make_segments c7_doc 80)
         (c7_patch "ell".data)).doc.getD 2 emptyPara) =
       (paraText (c7_doc.getD 2 emptyPara)).take 1 ++ "X".data ++
         (paraText (c7_doc.getD 2 emptyPara)).drop (1 + "ell".data.length) ∧
     paraText ((apply_patch_to_doc c7_doc (make_segments c7_doc 80)
         (c7_patch "ell".data)).doc.getD 5 emptyPara) = "Y".data ∧
     (apply_patch_to_doc c7_doc (make_segments c7_doc 80)
         (c7_patch "ell".data)).doc.getD 4 emptyPara = c7_doc.getD 4 emptyPara ∧
     (apply_patch_to_doc c7_doc (make_segments c7_doc 80) (c7_patch "ell".data)).report =
       ⟨[c7_editA "ell".data, c7_editB], []⟩) :=
  ⟨by decide, by decide, by decide,
   apply_patch_scenario c7_doc "ell".data 1 (by decide) (by decide) (by decide)
     (by
       intro j hj
       interval_cases j
       all_goals decide)⟩
